import Mathlib

/-!
# Verification of the `vault` secret-storage facade

Shallow embedding of the `ella-to/vault` Go library: a cross-platform
`Set`/`Get`/`Del` facade over per-platform secret-storage backends
(`vault.go`, `vault_darwin.go`, `vault_windows.go`, the Linux
secret-tool/file backend, the Android/iOS file backends, and the
js/wasm IndexedDB backend).

Modelling conventions:
* Go strings and byte slices are byte lists (`List Nat`, each element a
  byte value `< 256`); `bytesOf` converts an ASCII Lean string literal
  to its byte list (all literals appearing in the source are ASCII).
* External effects (process execution, the filesystem, the keychain,
  the secret-service daemon, IndexedDB) are explicit values: each
  backend operation is split into a pure mapping from the observed
  outcome of the external primitive to a result (translated line by
  line from the Go source) and, where a claim needs it, a small state
  model of the external store itself.
* Go errors are modelled by `VErr`: the three sentinel errors of
  `vault.go` plus `other` for every `fmt.Errorf`-produced error
  (carrying the formatted message bytes; the text of errors wrapped
  with `%w` from library errors is abstracted to a fixed marker).
-/

namespace Vault

/-- A Go string / byte slice, as its list of byte values. -/
abbrev GoStr := List Nat

/-- Byte list of an ASCII string literal. -/
def bytesOf (s : String) : GoStr := s.data.map Char.toNat

/-- The error values of the package: the three sentinels declared in
`vault.go` plus `other` for any `fmt.Errorf`-constructed error. -/
inductive VErr : Type where
  | notFound : VErr
  | invalidKey : VErr
  | invalidValue : VErr
  | other : GoStr → VErr
deriving DecidableEq, Repr

/-- Result of a Go function returning `(α, error)` (or just `error`,
with `α := Unit`). -/
inductive VRes (α : Type) : Type where
  | ok : α → VRes α
  | err : VErr → VRes α
deriving DecidableEq, Repr

/-- A platform backend: the three lower-case functions `set`, `get`,
`del` that each platform file provides, over an explicit external
state `σ`. -/
structure Backend (σ : Type) where
  set : σ → GoStr → GoStr → GoStr → σ × VRes Unit
  get : σ → GoStr → GoStr → σ × VRes GoStr
  del : σ → GoStr → GoStr → σ × VRes Unit

/-- `Set` from `vault.go`: validate, then delegate to the backend. -/
def SetF {σ : Type} (B : Backend σ) (st : σ) (service key : GoStr)
    (value : GoStr) : σ × VRes Unit :=
  if service = [] ∨ key = [] then (st, .err .invalidKey)
  else if value.length = 0 then (st, .err .invalidValue)
  else B.set st service key value

/-- `Get` from `vault.go`. -/
def GetF {σ : Type} (B : Backend σ) (st : σ) (service key : GoStr) :
    σ × VRes GoStr :=
  if service = [] ∨ key = [] then (st, .err .invalidKey)
  else B.get st service key

/-- `Del` from `vault.go`. -/
def DelF {σ : Type} (B : Backend σ) (st : σ) (service key : GoStr) :
    σ × VRes Unit :=
  if service = [] ∨ key = [] then (st, .err .invalidKey)
  else B.del st service key

/-- One observed backend invocation, for instrumenting the facade. -/
inductive Call : Type where
  | cset : GoStr → GoStr → GoStr → Call
  | cget : GoStr → GoStr → Call
  | cdel : GoStr → GoStr → Call
deriving DecidableEq, Repr

/-- An instrumented backend that records every invocation it receives
in its state. -/
def traceBackend : Backend (List Call) where
  set := fun log s k v => (log ++ [.cset s k v], .ok ())
  get := fun log s k => (log ++ [.cget s k], .err .notFound)
  del := fun log s k => (log ++ [.cdel s k], .err .notFound)

/-- A recorded call has non-empty service, key and (for set) value. -/
def CallOK : Call → Prop
  | .cset s k v => s ≠ [] ∧ k ≠ [] ∧ v ≠ []
  | .cget s k => s ≠ [] ∧ k ≠ []
  | .cdel s k => s ≠ [] ∧ k ≠ []

/-! ## Base64 transport encoding (`encoding/base64`, as used by the code)

The code uses `base64.StdEncoding` (`EncodeToString` / `DecodeString`)
for values and `base64.URLEncoding` for filenames.  Both are the same
algorithm over different 64-byte alphabets, with `=` (byte 61) padding. -/

/-- The standard base64 alphabet, as ASCII byte values. -/
def stdTbl : List Nat :=
  (List.range 26).map (· + 65) ++ (List.range 26).map (· + 97) ++
    (List.range 10).map (· + 48) ++ [43, 47]

/-- The URL-safe base64 alphabet (`-` and `_` instead of `+` and `/`). -/
def urlTbl : List Nat :=
  (List.range 26).map (· + 65) ++ (List.range 26).map (· + 97) ++
    (List.range 10).map (· + 48) ++ [45, 95]

/-- `EncodeToString` over alphabet `tbl`: 3 bytes become 4 alphabet
bytes; a final 1- or 2-byte quantum is padded with `=` (61). -/
def encB64 (tbl : List Nat) : List Nat → List Nat
  | [] => []
  | [a] => [tbl.getD (a / 4) 0, tbl.getD (a % 4 * 16) 0, 61, 61]
  | [a, b] => [tbl.getD (a / 4) 0, tbl.getD (a % 4 * 16 + b / 16) 0,
      tbl.getD (b % 16 * 4) 0, 61]
  | a :: b :: c :: rest =>
      tbl.getD (a / 4) 0 :: tbl.getD (a % 4 * 16 + b / 16) 0 ::
        tbl.getD (b % 16 * 4 + c / 64) 0 :: tbl.getD (c % 64) 0 ::
          encB64 tbl rest

/-- Position of byte `c` in alphabet `tbl` (the decode table). -/
def idxB64 (tbl : List Nat) (c : Nat) : Option Nat :=
  tbl.findIdx? (fun x => x = c)

/-- `DecodeString` over alphabet `tbl`: strict 4-byte quanta, `=`
padding only in the final quantum, `none` on any malformed input
(Go returns a `CorruptInputError`). -/
def decB64 (tbl : List Nat) : List Nat → Option (List Nat)
  | [] => some []
  | c1 :: c2 :: c3 :: c4 :: rest =>
      match idxB64 tbl c1, idxB64 tbl c2 with
      | some x1, some x2 =>
        if c3 = 61 then
          if c4 = 61 ∧ rest = [] then some [x1 * 4 + x2 / 16] else none
        else
          match idxB64 tbl c3 with
          | some x3 =>
            if c4 = 61 then
              if rest = [] then
                some [x1 * 4 + x2 / 16, x2 % 16 * 16 + x3 / 4]
              else none
            else
              match idxB64 tbl c4 with
              | some x4 =>
                match decB64 tbl rest with
                | some tl =>
                    some ((x1 * 4 + x2 / 16) :: (x2 % 16 * 16 + x3 / 4) ::
                      (x3 % 4 * 64 + x4) :: tl)
                | none => none
              | none => none
          | none => none
      | _, _ => none
  | _ => none

/-! ## Whitespace trimming (`strings.TrimSpace`)

The code applies `strings.TrimSpace` to tool output / file contents
before base64-decoding.  We model the ASCII whitespace set (Go also
trims non-ASCII Unicode spaces, but no byte produced by the base64
encoder nor any whitespace relevant to the claims is non-ASCII). -/

/-- ASCII whitespace bytes: TAB LF VT FF CR SPACE. -/
def isWS (b : Nat) : Bool :=
  b = 9 || b = 10 || b = 11 || b = 12 || b = 13 || b = 32

/-- `strings.TrimSpace` on bytes: drop whitespace from both ends. -/
def trimSpace (l : List Nat) : List Nat :=
  ((l.dropWhile isWS).reverse.dropWhile isWS).reverse

/-! ## Shared string helpers from the Go standard library -/

/-- `strings.Contains hay needle`. -/
def containsSub (hay needle : List Nat) : Bool :=
  if needle.isPrefixOf hay then true
  else
    match hay with
    | [] => false
    | _ :: t => containsSub t needle

/-- `strings.ToLower`, on the ASCII range (the only range the needles
`"not found"` / `"none"` of the Windows adapter involve). -/
def asciiLower (l : List Nat) : List Nat :=
  l.map fun b => if 65 ≤ b ∧ b ≤ 90 then b + 32 else b

/-! ## Outcomes of the external primitives

Each backend operation is a pure function from what it observed of the
external primitive (process exit/stdout/stderr, file read result,
IndexedDB callback) to a `VRes`; these functions are translated
directly from the corresponding Go functions. -/

/-- One run of an external command: whether `cmd.Run()` returned `nil`,
and the captured standard output / standard error bytes. -/
structure RunResult : Type where
  ok : Bool
  stdout : List Nat
  stderr : List Nat
deriving DecidableEq, Repr

/-- Outcome of `os.ReadFile`. -/
inductive ReadResult : Type where
  | notExist : ReadResult
  | readErr : GoStr → ReadResult
  | content : List Nat → ReadResult
deriving DecidableEq, Repr

/-- Outcome of `os.Remove`. -/
inductive RemoveResult : Type where
  | removed : RemoveResult
  | notExist : RemoveResult
  | rmErr : GoStr → RemoveResult
deriving DecidableEq, Repr

/-- Marker for the text of a wrapped library error (`%w`): the exact
message of `base64.CorruptInputError` is abstracted. -/
def b64ErrText : GoStr := bytesOf "illegal base64 data"

/-- `get` of `vault_darwin.go`, as a function of the outcome of
`security find-generic-password`. -/
def darwinGetM (r : RunResult) : VRes GoStr :=
  if r.ok = false then
    if containsSub r.stderr (bytesOf "could not be found") ||
        containsSub r.stderr (bytesOf "SecKeychainSearchCopyNext") then
      .err .notFound
    else .err (.other (bytesOf "vault: failed to get key: " ++ r.stderr))
  else
    match decB64 stdTbl (trimSpace r.stdout) with
    | none => .err (.other (bytesOf "vault: failed to decode value: " ++ b64ErrText))
    | some v => .ok v

/-- `del` of `vault_darwin.go`, as a function of the outcome of
`security delete-generic-password`. -/
def darwinDelM (r : RunResult) : VRes Unit :=
  if r.ok = false then
    if containsSub r.stderr (bytesOf "could not be found") ||
        containsSub r.stderr (bytesOf "SecKeychainSearchCopyNext") then
      .err .notFound
    else .err (.other (bytesOf "vault: failed to delete key: " ++ r.stderr))
  else .ok ()

/-- `get` of `vault_windows.go`, as a function of the outcome of the
PowerShell retrieval script. -/
def windowsGetM (r : RunResult) : VRes GoStr :=
  if r.ok = false then .err .notFound
  else
    let result := trimSpace r.stdout
    if result = [] then .err .notFound
    else
      match decB64 stdTbl result with
      | none => .err (.other (bytesOf "vault: failed to decode value: " ++ b64ErrText))
      | some v => .ok v

/-- `del` of `vault_windows.go`, as a function of the outcome of
`cmdkey /delete`. -/
def windowsDelM (r : RunResult) : VRes Unit :=
  if r.ok = false then
    if containsSub (asciiLower r.stderr) (bytesOf "not found") ||
        containsSub (asciiLower r.stderr) (bytesOf "none") then
      .err .notFound
    else .err (.other (bytesOf "vault: failed to delete key: " ++ r.stderr))
  else .ok ()

/-- `getSecretTool` of the Linux backend, as a function of the outcome
of `secret-tool lookup`.  Raw bytes, no transport decoding. -/
def getSecretToolM (r : RunResult) : VRes GoStr :=
  if r.ok = false then
    if r.stdout = [] then .err .notFound
    else .err (.other (bytesOf "vault: failed to get key: " ++ r.stderr))
  else
    if r.stdout = [] then .err .notFound
    else .ok r.stdout

/-- `deleteSecretTool` of the Linux backend, as a function of the
outcome of `secret-tool clear`. -/
def deleteSecretToolM (r : RunResult) : VRes Unit :=
  if r.ok = false then
    .err (.other (bytesOf "vault: failed to delete key: " ++ r.stderr))
  else .ok ()

/-- The file-backend `get` (identical in `vault_ios.go`, the Android
file and the Linux `getFileStorage` fallback), as a function of the
outcome of `os.ReadFile`. -/
def fileGetM (r : ReadResult) : VRes GoStr :=
  match r with
  | .notExist => .err .notFound
  | .readErr _ => .err (.other (bytesOf "vault: failed to read secret"))
  | .content data =>
      match decB64 stdTbl (trimSpace data) with
      | none => .err (.other (bytesOf "vault: failed to decode secret: " ++ b64ErrText))
      | some v => .ok v

/-- The file-backend `del`, as a function of the outcome of
`os.Remove`. -/
def fileDelM (r : RemoveResult) : VRes Unit :=
  match r with
  | .removed => .ok ()
  | .notExist => .err .notFound
  | .rmErr _ => .err (.other (bytesOf "vault: failed to delete secret"))

/-- Outcome of the IndexedDB `get` request in `vault_js.go`. -/
inductive JsGetOutcome : Type where
  | openFail : JsGetOutcome
  | reqFail : JsGetOutcome
  | noRecord : JsGetOutcome
  | record : GoStr → JsGetOutcome
deriving DecidableEq, Repr

/-- `get` of `vault_js.go`: `onerror` paths yield errors, an
undefined/null result yields `ErrNotFound`, a present record is
base64-decoded (no trimming in this adapter). -/
def jsGetM (o : JsGetOutcome) : VRes GoStr :=
  match o with
  | .openFail => .err (.other (bytesOf "vault: failed to open IndexedDB"))
  | .reqFail => .err (.other (bytesOf "vault: failed to get key from IndexedDB"))
  | .noRecord => .err .notFound
  | .record e =>
      match decB64 stdTbl e with
      | none => .err (.other b64ErrText)
      | some v => .ok v

/-- Outcome of the delete flow of `vault_js.go` (existence check, then
delete). -/
inductive JsDelOutcome : Type where
  | openFail : JsDelOutcome
  | checkFail : JsDelOutcome
  | noRecord : JsDelOutcome
  | delOk : JsDelOutcome
  | delFail : JsDelOutcome
deriving DecidableEq, Repr

/-- `del` of `vault_js.go`. -/
def jsDelM (o : JsDelOutcome) : VRes Unit :=
  match o with
  | .openFail => .err (.other (bytesOf "vault: failed to open IndexedDB"))
  | .checkFail => .err (.other (bytesOf "vault: failed to check key in IndexedDB"))
  | .noRecord => .err .notFound
  | .delOk => .ok ()
  | .delFail => .err (.other (bytesOf "vault: failed to delete key from IndexedDB"))

/-! ## State models of the external stores

For claims about set/get/del sequences, the external stores are
explicit maps; the translation of each operation composes the store
semantics with the pure outcome mappings above.  Filesystem writes and
keychain/daemon/IndexedDB stores are modelled as succeeding (the
claims concern a *successful* `Set`). -/

/-- The filesystem: path bytes to file contents. -/
def FS : Type := List Nat → Option (List Nat)

/-- An empty filesystem. -/
def fsEmpty : FS := fun _ => none

/-- `os.WriteFile`. -/
def fsWrite (fs : FS) (p data : List Nat) : FS :=
  fun q => if q = p then some data else fs q

/-- `os.ReadFile`. -/
def fsRead (fs : FS) (p : List Nat) : ReadResult :=
  match fs p with
  | some d => .content d
  | none => .notExist

/-- `os.Remove`. -/
def fsRemove (fs : FS) (p : List Nat) : FS × RemoveResult :=
  match fs p with
  | some _ => (fun q => if q = p then none else fs q, .removed)
  | none => (fs, .notExist)

/-- `getStoragePath` (identical in the iOS, Android and Linux files):
`filepath.Join(dir, base64.URLEncoding.EncodeToString(service + "/" + key))`.
`dir` is the per-platform storage directory. -/
def getStoragePathM (dir : List Nat) (service key : GoStr) : List Nat :=
  dir ++ 47 :: encB64 urlTbl (service ++ 47 :: key)

/-- The storage filename alone. -/
def storageFileName (service key : GoStr) : List Nat :=
  encB64 urlTbl (service ++ 47 :: key)

/-- File-backend `set`: write the std-base64 encoding of the value at
the derived path (`os.WriteFile` succeeding). -/
def fileSetSt (dir : List Nat) (fs : FS) (service key : GoStr) (value : GoStr) :
    FS × VRes Unit :=
  (fsWrite fs (getStoragePathM dir service key) (encB64 stdTbl value), .ok ())

/-- File-backend `get`: read the derived path and decode. -/
def fileGetSt (dir : List Nat) (fs : FS) (service key : GoStr) : FS × VRes GoStr :=
  (fs, fileGetM (fsRead fs (getStoragePathM dir service key)))

/-- File-backend `del`: remove the derived path. -/
def fileDelSt (dir : List Nat) (fs : FS) (service key : GoStr) : FS × VRes Unit :=
  let (fs', r) := fsRemove fs (getStoragePathM dir service key)
  (fs', fileDelM r)

/-- The file backend (iOS / Android / Linux fallback) packaged for the
facade. -/
def fileBackend (dir : List Nat) : Backend FS where
  set := fun fs s k v => fileSetSt dir fs s k v
  get := fun fs s k => fileGetSt dir fs s k
  del := fun fs s k => fileDelSt dir fs s k

/-- The macOS keychain: (service, account) to stored password text. -/
def KC : Type := GoStr × GoStr → Option (List Nat)

/-- `set` of `vault_darwin.go`: delete any existing item, then
`security add-generic-password` with the std-base64 encoding of the
value; the net effect on the keychain is an overwrite. -/
def darwinSetSt (kc : KC) (service key : GoStr) (value : GoStr) : KC :=
  fun p => if p = (service, key) then some (encB64 stdTbl value) else kc p

/-- Outcome of `security find-generic-password -w`: on a hit the tool
prints the stored password followed by a newline; on a miss it fails
with the well-known diagnostic on stderr. -/
def secFindOutcome (kc : KC) (service key : GoStr) : RunResult :=
  match kc (service, key) with
  | some pw => ⟨true, pw ++ [10], []⟩
  | none => ⟨false, [],
      bytesOf "security: SecKeychainSearchCopyNext: The specified item could not be found in the keychain."⟩

/-- `get` of `vault_darwin.go` against the keychain state. -/
def darwinGetSt (kc : KC) (service key : GoStr) : VRes GoStr :=
  darwinGetM (secFindOutcome kc service key)

/-- The GNOME-keyring/secret-service daemon store: (service, key)
attribute pair to secret bytes. -/
def Daemon : Type := GoStr × GoStr → Option (List Nat)

/-- The Linux backend state: the daemon plus the fallback file tree. -/
structure LinuxState : Type where
  daemon : Daemon
  files : FS

/-- An empty Linux state. -/
def linuxEmpty : LinuxState := ⟨fun _ => none, fsEmpty⟩

/-- `secret-tool store` writes the raw value bytes (stdin, no
transport encoding) under the attribute pair. -/
def secretToolStore (d : Daemon) (service key : GoStr) (value : GoStr) : Daemon :=
  fun p => if p = (service, key) then some value else d p

/-- Outcome of `secret-tool lookup`: the raw secret on stdout on a
hit; a silent nonzero exit on a miss. -/
def secretToolLookupOutcome (d : Daemon) (service key : GoStr) : RunResult :=
  match d (service, key) with
  | some v => ⟨true, v, []⟩
  | none => ⟨false, [], []⟩

/-- `set` of the Linux backend (`vault_linux` build): `hasSecretTool()`
is probed at this call; the secret-tool path stores raw bytes, the
fallback path writes the encoded file. -/
def linuxSet (avail : Bool) (dir : List Nat) (st : LinuxState)
    (service key : GoStr) (value : GoStr) : LinuxState × VRes Unit :=
  if avail then
    ({ st with daemon := secretToolStore st.daemon service key value }, .ok ())
  else
    let (fs', r) := fileSetSt dir st.files service key value
    ({ st with files := fs' }, r)

/-- `get` of the Linux backend: probed again at this call. -/
def linuxGet (avail : Bool) (dir : List Nat) (st : LinuxState)
    (service key : GoStr) : VRes GoStr :=
  if avail then getSecretToolM (secretToolLookupOutcome st.daemon service key)
  else (fileGetSt dir st.files service key).2

/-- The IndexedDB object store: record key to stored base64 text. -/
def JsDB : Type := List Nat → Option (List Nat)

/-- `set` of `vault_js.go`: `put` a record under `service + "/" + key`
whose value field is the std-base64 encoding. -/
def jsSetSt (db : JsDB) (service key : GoStr) (value : GoStr) : JsDB :=
  fun q => if q = service ++ 47 :: key then some (encB64 stdTbl value) else db q

/-- `get` of `vault_js.go` against the store state. -/
def jsGetSt (db : JsDB) (service key : GoStr) : VRes GoStr :=
  jsGetM (match db (service ++ 47 :: key) with
    | some e => .record e
    | none => .noRecord)

/-! ## Properties of the transport encoding and trimming -/

/-- Decode-table inversion for the standard alphabet. -/
theorem stdTbl_idx : ∀ n : Nat, n < 64 → idxB64 stdTbl (stdTbl.getD n 0) = some n := by
  decide

/-- Decode-table inversion for the URL-safe alphabet. -/
theorem urlTbl_idx : ∀ n : Nat, n < 64 → idxB64 urlTbl (urlTbl.getD n 0) = some n := by
  decide

/-- No standard-alphabet byte is the padding byte. -/
theorem stdTbl_ne_pad : ∀ n : Nat, n < 64 → stdTbl.getD n 0 ≠ 61 := by
  decide

/-- No URL-alphabet byte is the padding byte. -/
theorem urlTbl_ne_pad : ∀ n : Nat, n < 64 → urlTbl.getD n 0 ≠ 61 := by
  decide

/-- Decoding inverts encoding, for any alphabet whose decode table
inverts it and which avoids the padding byte. -/
theorem decB64_encB64 (tbl : List Nat)
    (hidx : ∀ n : Nat, n < 64 → idxB64 tbl (tbl.getD n 0) = some n)
    (hpad : ∀ n : Nat, n < 64 → tbl.getD n 0 ≠ 61) :
    ∀ l : List Nat, (∀ b ∈ l, b < 256) → decB64 tbl (encB64 tbl l) = some l := by
  have H : ∀ n : Nat, ∀ l : List Nat, l.length ≤ n → (∀ b ∈ l, b < 256) →
      decB64 tbl (encB64 tbl l) = some l := by
    intro n
    induction n with
    | zero =>
      intro l hlen _
      have : l = [] := List.length_eq_zero.mp (Nat.le_zero.mp hlen)
      subst this
      rfl
    | succ n ih =>
      intro l hlen hb
      match l with
      | [] => rfl
      | [a] =>
        have ha : a < 256 := hb a (by simp)
        simp only [encB64, decB64, hidx (a / 4) (by omega),
          hidx (a % 4 * 16) (by omega)]
        simp only [eq_self_iff_true, and_self, if_true,
          Option.some.injEq, List.cons.injEq, and_true]
        omega
      | [a, b] =>
        have ha : a < 256 := hb a (by simp)
        have hbb : b < 256 := hb b (by simp)
        simp only [encB64, decB64, hidx (a / 4) (by omega),
          hidx (a % 4 * 16 + b / 16) (by omega),
          if_neg (hpad (b % 16 * 4) (by omega)),
          hidx (b % 16 * 4) (by omega)]
        simp only [eq_self_iff_true, and_self, if_true,
          Option.some.injEq, List.cons.injEq, and_true]
        omega
      | a :: b :: c :: rest =>
        have ha : a < 256 := hb a (by simp)
        have hbb : b < 256 := hb b (by simp)
        have hc : c < 256 := hb c (by simp)
        have hrest : ∀ x ∈ rest, x < 256 := fun x hx => hb x (by simp [hx])
        have hrlen : rest.length ≤ n := by
          simp only [List.length_cons] at hlen
          omega
        simp only [encB64, decB64, hidx (a / 4) (by omega),
          hidx (a % 4 * 16 + b / 16) (by omega),
          if_neg (hpad (b % 16 * 4 + c / 64) (by omega)),
          hidx (b % 16 * 4 + c / 64) (by omega),
          if_neg (hpad (c % 64) (by omega)),
          hidx (c % 64) (by omega),
          ih rest hrlen hrest]
        simp only [eq_self_iff_true, and_self, if_true,
          Option.some.injEq, List.cons.injEq, and_true]
        omega
  intro l hb
  exact H l.length l le_rfl hb

/-- Every byte of a base64 encoding is an alphabet byte, the pad, or
the `getD` default. -/
theorem encB64_mem (tbl : List Nat) :
    ∀ l : List Nat, ∀ x ∈ encB64 tbl l, x ∈ tbl ∨ x = 61 ∨ x = 0 := by
  have elem_ok : ∀ i : Nat, tbl.getD i 0 ∈ tbl ∨ tbl.getD i 0 = 61 ∨ tbl.getD i 0 = 0 := by
    intro i
    by_cases h : i < tbl.length
    · exact Or.inl (List.getD_eq_getElem tbl 0 h ▸ List.getElem_mem h)
    · exact Or.inr (Or.inr (List.getD_eq_default tbl 0 (by omega)))
  have H : ∀ n : Nat, ∀ l : List Nat, l.length ≤ n →
      ∀ x ∈ encB64 tbl l, x ∈ tbl ∨ x = 61 ∨ x = 0 := by
    intro n
    induction n with
    | zero =>
      intro l hlen
      have : l = [] := List.length_eq_zero.mp (Nat.le_zero.mp hlen)
      subst this
      simp [encB64]
    | succ n ih =>
      intro l hlen x hx
      match l with
      | [] => simp [encB64] at hx
      | [a] =>
        simp only [encB64, List.mem_cons, List.not_mem_nil, or_false] at hx
        rcases hx with h | h | h | h
        · exact h ▸ elem_ok _
        · exact h ▸ elem_ok _
        · exact Or.inr (Or.inl h)
        · exact Or.inr (Or.inl h)
      | [a, b] =>
        simp only [encB64, List.mem_cons, List.not_mem_nil, or_false] at hx
        rcases hx with h | h | h | h
        · exact h ▸ elem_ok _
        · exact h ▸ elem_ok _
        · exact h ▸ elem_ok _
        · exact Or.inr (Or.inl h)
      | a :: b :: c :: rest =>
        simp only [encB64, List.mem_cons] at hx
        rcases hx with h | h | h | h | h
        · exact h ▸ elem_ok _
        · exact h ▸ elem_ok _
        · exact h ▸ elem_ok _
        · exact h ▸ elem_ok _
        · exact ih rest (by simp at hlen; omega) x h
  intro l
  exact H l.length l le_rfl

/-- No standard-alphabet byte is whitespace. -/
theorem stdTbl_not_ws : ∀ x ∈ stdTbl, isWS x = false := by decide

/-- No URL-alphabet byte is whitespace. -/
theorem urlTbl_not_ws : ∀ x ∈ urlTbl, isWS x = false := by decide

/-- Bytes of a standard-alphabet base64 encoding are never whitespace. -/
theorem encB64_std_not_ws (l : List Nat) :
    ∀ x ∈ encB64 stdTbl l, isWS x = false := by
  intro x hx
  rcases encB64_mem stdTbl l x hx with h | h | h
  · exact stdTbl_not_ws x h
  · subst h; decide
  · subst h; decide

/-- Dropping the whitespace prefix of a whitespace-free list is a no-op. -/
theorem dropWhile_ws_of_not_ws {l : List Nat}
    (h : ∀ x ∈ l, isWS x = false) : l.dropWhile isWS = l := by
  cases l with
  | nil => rfl
  | cons a t =>
    rw [List.dropWhile_cons_of_neg]
    simp [h a (by simp)]

/-- An all-whitespace list drops to nothing. -/
theorem dropWhile_ws_all {l : List Nat}
    (h : ∀ x ∈ l, isWS x = true) : l.dropWhile isWS = [] := by
  induction l with
  | nil => rfl
  | cons a t ih =>
    rw [List.dropWhile_cons_of_pos (by simp [h a (by simp)])]
    exact ih fun x hx => h x (by simp [hx])

/-- Dropping a whitespace predicate walks through an all-whitespace
prefix. -/
theorem dropWhile_ws_append {l r : List Nat}
    (h : ∀ x ∈ l, isWS x = true) :
    (l ++ r).dropWhile isWS = r.dropWhile isWS := by
  induction l with
  | nil => rfl
  | cons a t ih =>
    rw [List.cons_append, List.dropWhile_cons_of_pos (by simp [h a (by simp)])]
    exact ih fun x hx => h x (by simp [hx])

/-- `TrimSpace` strips a trailing run of whitespace from a
whitespace-free payload, and leaves the payload itself intact. -/
theorem trimSpace_append_ws {l ws : List Nat}
    (hl : ∀ x ∈ l, isWS x = false) (hws : ∀ x ∈ ws, isWS x = true) :
    trimSpace (l ++ ws) = l := by
  unfold trimSpace
  cases l with
  | nil =>
    rw [List.nil_append, dropWhile_ws_all hws]
    rfl
  | cons a t =>
    have hl' : ∀ x ∈ a :: t, isWS x = false := hl
    rw [List.cons_append, List.dropWhile_cons_of_neg (by simp [hl' a (by simp)])]
    rw [show (a :: (t ++ ws)).reverse = ws.reverse ++ (a :: t).reverse by
      simp]
    rw [dropWhile_ws_append (fun x hx => hws x (by simpa using hx))]
    rw [dropWhile_ws_of_not_ws (fun x hx => hl' x (List.mem_reverse.mp hx))]
    simp

/-- `TrimSpace` is the identity on a whitespace-free list. -/
theorem trimSpace_of_not_ws {l : List Nat}
    (hl : ∀ x ∈ l, isWS x = false) : trimSpace l = l := by
  have h := @trimSpace_append_ws l [] hl (by simp)
  simpa using h

/-- Decoding after trimming recovers the payload, for any trailing
whitespace the channel appended. -/
theorem decB64_trim_encB64 {v ws : List Nat}
    (hv : ∀ b ∈ v, b < 256) (hws : ∀ x ∈ ws, isWS x = true) :
    decB64 stdTbl (trimSpace (encB64 stdTbl v ++ ws)) = some v := by
  rw [trimSpace_append_ws (encB64_std_not_ws v) hws]
  exact decB64_encB64 stdTbl stdTbl_idx stdTbl_ne_pad v hv

/-- Splitting at the separator byte `47` (`'/'`) is unambiguous when
neither left part contains the separator. -/
theorem slash_split {s1 : List Nat} : ∀ {s2 k1 k2 : List Nat},
    47 ∉ s1 → 47 ∉ s2 → s1 ++ 47 :: k1 = s2 ++ 47 :: k2 → s1 = s2 ∧ k1 = k2 := by
  induction s1 with
  | nil =>
    intro s2 k1 k2 _ h2 h
    cases s2 with
    | nil => simpa using h
    | cons b t =>
      simp only [List.nil_append, List.cons_append, List.cons.injEq] at h
      exact absurd (h.1 ▸ List.mem_cons_self b t) (by simp [h.1] at h2)
  | cons a t ih =>
    intro s2 k1 k2 h1 h2 h
    cases s2 with
    | nil =>
      simp only [List.cons_append, List.nil_append, List.cons.injEq] at h
      exact absurd (h.1 ▸ List.mem_cons_self a t) (by simp [h.1] at h1)
    | cons b t' =>
      simp only [List.cons_append, List.cons.injEq] at h
      obtain ⟨hab, htail⟩ := h
      obtain ⟨hts, hk⟩ := ih (fun hm => h1 (List.mem_cons_of_mem a hm))
        (fun hm => h2 (List.mem_cons_of_mem b hm)) htail
      exact ⟨by rw [hab, hts], hk⟩

/-- URL-safe base64 encoding is injective on byte lists. -/
theorem encB64_url_inj {x y : List Nat} (hx : ∀ b ∈ x, b < 256)
    (hy : ∀ b ∈ y, b < 256) (h : encB64 urlTbl x = encB64 urlTbl y) : x = y := by
  have h1 := decB64_encB64 urlTbl urlTbl_idx urlTbl_ne_pad x hx
  have h2 := decB64_encB64 urlTbl urlTbl_idx urlTbl_ne_pad y hy
  rw [h, h2] at h1
  exact (Option.some_inj.mp h1).symm

/-- No URL-alphabet byte is `'/'` (47) or `'.'` (46). -/
theorem urlTbl_no_sep : ∀ x ∈ urlTbl, x ≠ 47 ∧ x ≠ 46 := by decide

/-- The darwin keychain round-trip: `get` after `set` on the same
identity recovers the value (the tool echoes the stored password plus
a newline; trimming and decoding invert the encoding). -/
theorem darwin_set_get (kc : KC) (s k v : GoStr) (hb : ∀ b ∈ v, b < 256) :
    darwinGetSt (darwinSetSt kc s k v) s k = .ok v := by
  have hout : secFindOutcome (darwinSetSt kc s k v) s k =
      ⟨true, encB64 stdTbl v ++ [10], []⟩ := by
    unfold secFindOutcome darwinSetSt
    rw [if_pos rfl]
  unfold darwinGetSt
  rw [hout]
  unfold darwinGetM
  rw [trimSpace_append_ws (encB64_std_not_ws v) (by decide)]
  simp [decB64_encB64 stdTbl stdTbl_idx stdTbl_ne_pad v hb]

/-- Reading back a freshly written encoded value succeeds. -/
theorem fileGetM_content_enc {v : List Nat} (hv : ∀ b ∈ v, b < 256) :
    fileGetM (.content (encB64 stdTbl v)) = .ok v := by
  simp [fileGetM, trimSpace_of_not_ws (encB64_std_not_ws v),
    decB64_encB64 stdTbl stdTbl_idx stdTbl_ne_pad v hv]

/-! ## Result-shape predicate -/

/-- A result that is a value, `ErrNotFound`, or a wrapped backend
failure — in particular neither `ErrInvalidKey` nor
`ErrInvalidValue`. -/
def BackendShaped {α : Type} (r : VRes α) : Prop :=
  (∃ v, r = .ok v) ∨ r = .err .notFound ∨ ∃ m, r = .err (.other m)

/-! ## Claim theorems -/

/-- C1: `Set`, `Get`, `Del` with an empty service or key return
`ErrInvalidKey` for every backend without changing its state; `Set`
with an empty value returns `ErrInvalidValue` likewise; and every
backend invocation the facade performs (observed on the instrumented
backend, which records all calls it receives) carries a non-empty
service, key and — for set — value. -/
theorem C1_facade_validates_before_backend :
    (∀ (σ : Type) (B : Backend σ) (st : σ) (s k v : GoStr),
        s = [] ∨ k = [] →
        SetF B st s k v = (st, .err .invalidKey) ∧
        GetF B st s k = (st, .err .invalidKey) ∧
        DelF B st s k = (st, .err .invalidKey)) ∧
    (∀ (σ : Type) (B : Backend σ) (st : σ) (s k : GoStr),
        s ≠ [] → k ≠ [] → SetF B st s k [] = (st, .err .invalidValue)) ∧
    (∀ s k v : GoStr, ∀ c ∈ (SetF traceBackend [] s k v).1, CallOK c) ∧
    (∀ s k : GoStr, ∀ c ∈ (GetF traceBackend [] s k).1, CallOK c) ∧
    (∀ s k : GoStr, ∀ c ∈ (DelF traceBackend [] s k).1, CallOK c) := by
  refine ⟨?_, ?_, ?_, ?_, ?_⟩
  · intro σ B st s k v h
    exact ⟨by simp [SetF, h], by simp [GetF, h], by simp [DelF, h]⟩
  · intro σ B st s k hs hk
    simp [SetF, hs, hk]
  · intro s k v c hc
    by_cases h : s = [] ∨ k = []
    · simp [SetF, h] at hc
    · by_cases hv : v.length = 0
      · simp [SetF, h, hv] at hc
      · push_neg at h
        simp [SetF, h.1, h.2, hv, traceBackend] at hc
        subst hc
        exact ⟨h.1, h.2, by simpa using hv⟩
  · intro s k c hc
    by_cases h : s = [] ∨ k = []
    · simp [GetF, h] at hc
    · push_neg at h
      simp [GetF, h.1, h.2, traceBackend] at hc
      subst hc
      exact ⟨h.1, h.2⟩
  · intro s k c hc
    by_cases h : s = [] ∨ k = []
    · simp [DelF, h] at hc
    · push_neg at h
      simp [DelF, h.1, h.2, traceBackend] at hc
      subst hc
      exact ⟨h.1, h.2⟩

/-- C1 witness: the theorem instantiated at concrete inputs. -/
theorem C1_facade_validates_before_backend_witness :
    (SetF traceBackend [] [] [107] [118] = ([], .err .invalidKey) ∧
      GetF traceBackend [] [] [107] = ([], .err .invalidKey) ∧
      DelF traceBackend [] [] [107] = ([], .err .invalidKey)) ∧
    SetF traceBackend [] [115] [107] [] = ([], .err .invalidValue) ∧
    CallOK (.cset [115] [107] [118]) :=
  ⟨C1_facade_validates_before_backend.1 (List Call) traceBackend [] [] [107] [118]
      (Or.inl rfl),
    C1_facade_validates_before_backend.2.1 (List Call) traceBackend [] [115] [107]
      (by decide) (by decide),
    C1_facade_validates_before_backend.2.2.1 [115] [107] [118]
      (.cset [115] [107] [118]) (by decide)⟩

/-- C10: when both the identity and the value are empty, the identity
check wins — `Set` returns `ErrInvalidKey`, not `ErrInvalidValue`;
and `Get`/`Del` results over every modelled backend are only a value,
`ErrNotFound`, `ErrInvalidKey` (facade) or a backend failure — never
`ErrInvalidValue`. -/
theorem C10_invalidValue_only_from_Set :
    (∀ (σ : Type) (B : Backend σ) (st : σ) (k : GoStr),
        SetF B st [] k [] = (st, .err .invalidKey)) ∧
    (∀ (σ : Type) (B : Backend σ) (st : σ) (s : GoStr),
        SetF B st s [] [] = (st, .err .invalidKey)) ∧
    (∀ r : RunResult, BackendShaped (darwinGetM r)) ∧
    (∀ r : RunResult, BackendShaped (darwinDelM r)) ∧
    (∀ r : RunResult, BackendShaped (windowsGetM r)) ∧
    (∀ r : RunResult, BackendShaped (windowsDelM r)) ∧
    (∀ r : RunResult, BackendShaped (getSecretToolM r)) ∧
    (∀ r : RunResult, BackendShaped (deleteSecretToolM r)) ∧
    (∀ r : ReadResult, BackendShaped (fileGetM r)) ∧
    (∀ r : RemoveResult, BackendShaped (fileDelM r)) ∧
    (∀ o : JsGetOutcome, BackendShaped (jsGetM o)) ∧
    (∀ o : JsDelOutcome, BackendShaped (jsDelM o)) ∧
    (∀ (dir : List Nat) (fs : FS) (s k : GoStr),
        (GetF (fileBackend dir) fs s k).2 = .err .invalidKey ∨
          BackendShaped (GetF (fileBackend dir) fs s k).2) ∧
    (∀ (dir : List Nat) (fs : FS) (s k : GoStr),
        (DelF (fileBackend dir) fs s k).2 = .err .invalidKey ∨
          BackendShaped (DelF (fileBackend dir) fs s k).2) := by
  have hfg : ∀ r : ReadResult, BackendShaped (fileGetM r) := by
    intro r
    unfold fileGetM BackendShaped
    rcases r with _ | m | data
    · simp
    · simp
    · rcases h : decB64 stdTbl (trimSpace data) with _ | v <;> simp [h]
  have hfd : ∀ r : RemoveResult, BackendShaped (fileDelM r) := by
    intro r
    unfold fileDelM BackendShaped
    rcases r with _ | _ | m <;> simp
  refine ⟨?_, ?_, ?_, ?_, ?_, ?_, ?_, ?_, hfg, hfd, ?_, ?_, ?_, ?_⟩
  · intro σ B st k
    simp [SetF]
  · intro σ B st s
    simp [SetF]
  · rintro ⟨ok, stdout, stderr⟩
    cases ok
    · by_cases h : (containsSub stderr (bytesOf "could not be found") ||
          containsSub stderr (bytesOf "SecKeychainSearchCopyNext")) = true <;>
        simp [darwinGetM, BackendShaped, h]
    · rcases hd : decB64 stdTbl (trimSpace stdout) with _ | v <;>
        simp [darwinGetM, BackendShaped, hd]
  · rintro ⟨ok, stdout, stderr⟩
    cases ok
    · by_cases h : (containsSub stderr (bytesOf "could not be found") ||
          containsSub stderr (bytesOf "SecKeychainSearchCopyNext")) = true <;>
        simp [darwinDelM, BackendShaped, h]
    · simp [darwinDelM, BackendShaped]
  · rintro ⟨ok, stdout, stderr⟩
    cases ok
    · simp [windowsGetM, BackendShaped]
    · by_cases h : trimSpace stdout = []
      · simp [windowsGetM, BackendShaped, h]
      · rcases hd : decB64 stdTbl (trimSpace stdout) with _ | v <;>
          simp [windowsGetM, BackendShaped, h, hd]
  · rintro ⟨ok, stdout, stderr⟩
    cases ok
    · by_cases h : (containsSub (asciiLower stderr) (bytesOf "not found") ||
          containsSub (asciiLower stderr) (bytesOf "none")) = true <;>
        simp [windowsDelM, BackendShaped, h]
    · simp [windowsDelM, BackendShaped]
  · rintro ⟨ok, stdout, stderr⟩
    cases ok <;> by_cases h : stdout = [] <;>
      simp [getSecretToolM, BackendShaped, h]
  · rintro ⟨ok, stdout, stderr⟩
    cases ok <;> simp [deleteSecretToolM, BackendShaped]
  · intro o
    unfold jsGetM BackendShaped
    rcases o with _ | _ | _ | e
    · simp
    · simp
    · simp
    · rcases h : decB64 stdTbl e with _ | v <;> simp [h]
  · intro o
    unfold jsDelM BackendShaped
    rcases o with _ | _ | _ | _ | _ <;> simp
  · intro dir fs s k
    by_cases h : s = [] ∨ k = []
    · left
      simp [GetF, h]
    · right
      simp only [GetF, if_neg h, fileBackend, fileGetSt]
      exact hfg _
  · intro dir fs s k
    by_cases h : s = [] ∨ k = []
    · left
      simp [DelF, h]
    · right
      simp only [DelF, if_neg h, fileBackend, fileDelSt]
      exact hfd _

/-- C6 is a code bug: `deleteSecretTool` of the Linux backend can only
return success or a wrapped backend failure — it has no `ErrNotFound`
path at all, contradicting `Del`'s documented contract and
`TestDelNotFound`.  This theorem characterises every possible result
of the function. -/
theorem C6_deleteSecretTool_has_no_notFound :
    ∀ r : RunResult,
      deleteSecretToolM r = .ok () ∨
        deleteSecretToolM r =
          .err (.other (bytesOf "vault: failed to delete key: " ++ r.stderr)) := by
  intro r
  unfold deleteSecretToolM
  rcases hok : r.ok with _ | _
  · right
    simp
  · left
    simp

/-- C5 counterexample: the Windows `get` maps an unexpected script
failure — nonzero exit with non-empty output and a PowerShell parser
diagnostic, none of the recognised not-found signals — to
`ErrNotFound` rather than a backend failure. -/
theorem C5_counterexample_windows_failure_is_notFound :
    windowsGetM ⟨false, bytesOf "garbage", bytesOf "ParserError: script failure"⟩ =
      .err .notFound := by
  rfl

/-- C5 amended: the darwin, Linux secret-tool, file and browser
retrieve operations map only their recognised absence signals to
`NotFound` and surface every other failure of the primitive as a
backend failure; the Windows retrieve deviates, mapping every failing
invocation of its script to `NotFound`. -/
theorem C5_amended_absence_discipline :
    (∀ r : RunResult, r.ok = false →
        containsSub r.stderr (bytesOf "could not be found") = false →
        containsSub r.stderr (bytesOf "SecKeychainSearchCopyNext") = false →
        darwinGetM r = .err (.other (bytesOf "vault: failed to get key: " ++ r.stderr))) ∧
    (∀ r : RunResult, r.ok = false →
        (containsSub r.stderr (bytesOf "could not be found") = true ∨
          containsSub r.stderr (bytesOf "SecKeychainSearchCopyNext") = true) →
        darwinGetM r = .err .notFound) ∧
    (∀ r : RunResult, r.ok = false → r.stdout ≠ [] →
        getSecretToolM r = .err (.other (bytesOf "vault: failed to get key: " ++ r.stderr))) ∧
    (∀ r : RunResult, r.ok = false → r.stdout = [] →
        getSecretToolM r = .err .notFound) ∧
    (∀ m : GoStr,
        fileGetM (.readErr m) = .err (.other (bytesOf "vault: failed to read secret"))) ∧
    fileGetM .notExist = .err .notFound ∧
    jsGetM .openFail = .err (.other (bytesOf "vault: failed to open IndexedDB")) ∧
    jsGetM .reqFail = .err (.other (bytesOf "vault: failed to get key from IndexedDB")) ∧
    jsGetM .noRecord = .err .notFound ∧
    (∀ r : RunResult, r.ok = false → windowsGetM r = .err .notFound) := by
  refine ⟨?_, ?_, ?_, ?_, fun m => rfl, rfl, rfl, rfl, rfl, ?_⟩
  · intro r hok h1 h2
    simp [darwinGetM, hok, h1, h2]
  · intro r hok h
    rcases h with h | h <;> simp [darwinGetM, hok, h]
  · intro r hok h
    simp [getSecretToolM, hok, h]
  · intro r hok h
    simp [getSecretToolM, hok, h]
  · intro r hok
    simp [windowsGetM, hok]

/-- C5 amended witness: the discipline evaluated at concrete outcomes
(a permission-denied failure on darwin, a failing lookup with output
on Linux, a failing Windows run). -/
theorem C5_amended_absence_discipline_witness :
    darwinGetM ⟨false, [], bytesOf "security: permission denied"⟩ =
      .err (.other (bytesOf "vault: failed to get key: " ++ bytesOf "security: permission denied")) ∧
    getSecretToolM ⟨false, [120], bytesOf "cannot connect to dbus"⟩ =
      .err (.other (bytesOf "vault: failed to get key: " ++ bytesOf "cannot connect to dbus")) ∧
    windowsGetM ⟨false, [], []⟩ = .err .notFound :=
  ⟨C5_amended_absence_discipline.1 ⟨false, [], bytesOf "security: permission denied"⟩
      rfl (by decide) (by decide),
    C5_amended_absence_discipline.2.2.1 ⟨false, [120], bytesOf "cannot connect to dbus"⟩
      rfl (by decide),
    C5_amended_absence_discipline.2.2.2.2.2.2.2.2.2 ⟨false, [], []⟩ rfl⟩

/-- C9: in every adapter's retrieve, data that is present but fails
base64 decoding yields a backend failure — never `NotFound` and never
a value. -/
theorem C9_decode_failure_is_backend_failure :
    (∀ data : List Nat, decB64 stdTbl (trimSpace data) = none →
        fileGetM (.content data) =
          .err (.other (bytesOf "vault: failed to decode secret: " ++ b64ErrText))) ∧
    (∀ r : RunResult, r.ok = true → decB64 stdTbl (trimSpace r.stdout) = none →
        darwinGetM r =
          .err (.other (bytesOf "vault: failed to decode value: " ++ b64ErrText))) ∧
    (∀ r : RunResult, r.ok = true → trimSpace r.stdout ≠ [] →
        decB64 stdTbl (trimSpace r.stdout) = none →
        windowsGetM r =
          .err (.other (bytesOf "vault: failed to decode value: " ++ b64ErrText))) ∧
    (∀ e : GoStr, decB64 stdTbl e = none →
        jsGetM (.record e) = .err (.other b64ErrText)) := by
  refine ⟨?_, ?_, ?_, ?_⟩
  · intro data h
    simp [fileGetM, h]
  · intro r hok h
    simp [darwinGetM, hok, h]
  · intro r hok hne h
    simp [windowsGetM, hok, hne, h]
  · intro e h
    simp [jsGetM, h]

/-- C9 witness: a stored byte `'!'` is not valid base64; each adapter
surfaces the decode failure as a backend failure. -/
theorem C9_decode_failure_is_backend_failure_witness :
    fileGetM (.content [33]) =
      .err (.other (bytesOf "vault: failed to decode secret: " ++ b64ErrText)) ∧
    darwinGetM ⟨true, [33], []⟩ =
      .err (.other (bytesOf "vault: failed to decode value: " ++ b64ErrText)) ∧
    windowsGetM ⟨true, [33], []⟩ =
      .err (.other (bytesOf "vault: failed to decode value: " ++ b64ErrText)) ∧
    jsGetM (.record [33]) = .err (.other b64ErrText) :=
  ⟨C9_decode_failure_is_backend_failure.1 [33] (by decide),
    C9_decode_failure_is_backend_failure.2.1 ⟨true, [33], []⟩ rfl (by decide),
    C9_decode_failure_is_backend_failure.2.2.1 ⟨true, [33], []⟩ rfl (by decide) (by decide),
    C9_decode_failure_is_backend_failure.2.2.2 [33] (by decide)⟩

/-- C8: the base64 transport and its decoding are mutually inverse on
every byte sequence, and trailing channel whitespace is stripped
before decoding — both as bare codec laws and through the file
backend's read path. -/
theorem C8_transport_encoding_roundtrip :
    ∀ x ws : List Nat, (∀ b ∈ x, b < 256) → (∀ c ∈ ws, isWS c = true) →
      decB64 stdTbl (encB64 stdTbl x) = some x ∧
      decB64 stdTbl (trimSpace (encB64 stdTbl x ++ ws)) = some x ∧
      fileGetM (.content (encB64 stdTbl x ++ ws)) = .ok x := by
  intro x ws hx hws
  refine ⟨decB64_encB64 stdTbl stdTbl_idx stdTbl_ne_pad x hx,
    decB64_trim_encB64 hx hws, ?_⟩
  simp [fileGetM, decB64_trim_encB64 hx hws]

/-- C8 witness: the empty sequence, and a sequence with `0x00` and a
high-bit byte followed by channel whitespace. -/
theorem C8_transport_encoding_roundtrip_witness :
    (decB64 stdTbl (encB64 stdTbl []) = some [] ∧
      decB64 stdTbl (trimSpace (encB64 stdTbl [] ++ [])) = some [] ∧
      fileGetM (.content (encB64 stdTbl [] ++ [])) = .ok []) ∧
    (decB64 stdTbl (encB64 stdTbl [0, 0, 255]) = some [0, 0, 255] ∧
      decB64 stdTbl (trimSpace (encB64 stdTbl [0, 0, 255] ++ [10, 32])) =
        some [0, 0, 255] ∧
      fileGetM (.content (encB64 stdTbl [0, 0, 255] ++ [10, 32])) = .ok [0, 0, 255]) :=
  ⟨C8_transport_encoding_roundtrip [] [] (by decide) (by decide),
    C8_transport_encoding_roundtrip [0, 0, 255] [10, 32] (by decide) (by decide)⟩

/-- C2: on each backend, a successful `Set` of a non-empty value under
a non-empty identity followed by `Get` of the same identity returns
exactly that value (file backend through the facade; darwin keychain,
Linux secret-tool and IndexedDB at the adapter level). -/
theorem C2_set_get_roundtrip :
    ∀ (dir : List Nat) (fs : FS) (kc : KC) (d : Daemon) (db : JsDB)
      (s k v : GoStr),
      s ≠ [] → k ≠ [] → v ≠ [] → (∀ b ∈ v, b < 256) →
      (GetF (fileBackend dir) (SetF (fileBackend dir) fs s k v).1 s k).2 = .ok v ∧
      darwinGetSt (darwinSetSt kc s k v) s k = .ok v ∧
      getSecretToolM (secretToolLookupOutcome (secretToolStore d s k v) s k) = .ok v ∧
      jsGetSt (jsSetSt db s k v) s k = .ok v := by
  intro dir fs kc d db s k v hs hk hv hb
  have hnsk : ¬(s = [] ∨ k = []) := by simp [hs, hk]
  have hlen : ¬(v.length = 0) := by simpa [List.length_eq_zero] using hv
  refine ⟨?_, ?_, ?_, ?_⟩
  · simp only [SetF, GetF, if_neg hnsk, if_neg hlen, fileBackend, fileSetSt,
      fileGetSt, fsRead, fsWrite, if_pos rfl]
    exact fileGetM_content_enc hb
  · exact darwin_set_get kc s k v hb
  · simp [secretToolStore, secretToolLookupOutcome, getSecretToolM, hv]
  · simp [jsSetSt, jsGetSt, jsGetM,
      decB64_encB64 stdTbl stdTbl_idx stdTbl_ne_pad v hb]

/-- C2 witness: a value containing `0x00`, a high-bit byte and
multi-byte UTF-8 round-trips on all four modelled backends. -/
theorem C2_set_get_roundtrip_witness :
    (GetF (fileBackend (bytesOf "/data"))
        (SetF (fileBackend (bytesOf "/data")) fsEmpty (bytesOf "svc") (bytesOf "key")
          [0, 255, 226, 130, 172]).1 (bytesOf "svc") (bytesOf "key")).2 =
      .ok [0, 255, 226, 130, 172] ∧
    darwinGetSt (darwinSetSt (fun _ => none) (bytesOf "svc") (bytesOf "key")
        [0, 255, 226, 130, 172]) (bytesOf "svc") (bytesOf "key") =
      .ok [0, 255, 226, 130, 172] ∧
    getSecretToolM (secretToolLookupOutcome
        (secretToolStore (fun _ => none) (bytesOf "svc") (bytesOf "key")
          [0, 255, 226, 130, 172]) (bytesOf "svc") (bytesOf "key")) =
      .ok [0, 255, 226, 130, 172] ∧
    jsGetSt (jsSetSt (fun _ => none) (bytesOf "svc") (bytesOf "key")
        [0, 255, 226, 130, 172]) (bytesOf "svc") (bytesOf "key") =
      .ok [0, 255, 226, 130, 172] :=
  C2_set_get_roundtrip (bytesOf "/data") fsEmpty (fun _ => none) (fun _ => none)
    (fun _ => none) (bytesOf "svc") (bytesOf "key") [0, 255, 226, 130, 172]
    (by decide) (by decide) (by decide) (by decide)

/-- C7: overwriting is last-write-wins with no explicit delete by the
caller: `Set v1; Set v2; Get` yields `v2`, on the file backend through
the facade and on the darwin keychain adapter (whose `set` internally
deletes then adds). -/
theorem C7_overwrite_last_write_wins :
    ∀ (dir : List Nat) (fs : FS) (kc : KC) (s k v1 v2 : GoStr),
      s ≠ [] → k ≠ [] → v1 ≠ [] → v2 ≠ [] → (∀ b ∈ v2, b < 256) →
      (GetF (fileBackend dir)
          (SetF (fileBackend dir) (SetF (fileBackend dir) fs s k v1).1 s k v2).1
          s k).2 = .ok v2 ∧
      darwinGetSt (darwinSetSt (darwinSetSt kc s k v1) s k v2) s k = .ok v2 := by
  intro dir fs kc s k v1 v2 hs hk hv1 hv2 hb2
  have hnsk : ¬(s = [] ∨ k = []) := by simp [hs, hk]
  have hlen1 : ¬(v1.length = 0) := by simpa [List.length_eq_zero] using hv1
  have hlen2 : ¬(v2.length = 0) := by simpa [List.length_eq_zero] using hv2
  constructor
  · simp only [SetF, GetF, if_neg hnsk, if_neg hlen1, if_neg hlen2, fileBackend,
      fileSetSt, fileGetSt, fsRead, fsWrite, if_pos rfl]
    exact fileGetM_content_enc hb2
  · exact darwin_set_get (darwinSetSt kc s k v1) s k v2 hb2

/-- C7 witness: the second write is the one read back. -/
theorem C7_overwrite_last_write_wins_witness :
    (GetF (fileBackend (bytesOf "/data"))
        (SetF (fileBackend (bytesOf "/data"))
          (SetF (fileBackend (bytesOf "/data")) fsEmpty (bytesOf "s") (bytesOf "k")
            [1]).1 (bytesOf "s") (bytesOf "k") [2, 3]).1
        (bytesOf "s") (bytesOf "k")).2 = .ok [2, 3] ∧
    darwinGetSt (darwinSetSt (darwinSetSt (fun _ => none) (bytesOf "s") (bytesOf "k")
        [1]) (bytesOf "s") (bytesOf "k") [2, 3]) (bytesOf "s") (bytesOf "k") =
      .ok [2, 3] :=
  C7_overwrite_last_write_wins (bytesOf "/data") fsEmpty (fun _ => none)
    (bytesOf "s") (bytesOf "k") [1] [2, 3]
    (by decide) (by decide) (by decide) (by decide) (by decide)

/-- C4 counterexample: the Linux backend probes `hasSecretTool()` at
every call, not once per process.  A value stored while the tool is
available (into the daemon) is not found by a `get` issued after the
tool becomes unavailable (which reads the file fallback): the run
mixes backends. -/
theorem C4_counterexample_backend_mixing :
    linuxGet true (bytesOf "/dir")
        (linuxSet true (bytesOf "/dir") linuxEmpty (bytesOf "app") (bytesOf "k")
          [115]).1 (bytesOf "app") (bytesOf "k") = .ok [115] ∧
    linuxGet false (bytesOf "/dir")
        (linuxSet true (bytesOf "/dir") linuxEmpty (bytesOf "app") (bytesOf "k")
          [115]).1 (bytesOf "app") (bytesOf "k") = .err .notFound := by
  constructor <;> decide

/-- C4 amended: availability is re-probed on every operation; for a
fixed availability the dispatch is stable and a set/get round-trip
stays within one backend and succeeds. -/
theorem C4_amended_stable_for_fixed_availability :
    ∀ (a : Bool) (dir : List Nat) (st : LinuxState) (s k v : GoStr),
      v ≠ [] → (∀ b ∈ v, b < 256) →
      linuxGet a dir (linuxSet a dir st s k v).1 s k = .ok v := by
  intro a dir st s k v hv hb
  cases a
  · show fileGetM (fsRead (fsWrite st.files (getStoragePathM dir s k)
        (encB64 stdTbl v)) (getStoragePathM dir s k)) = .ok v
    unfold fsRead fsWrite
    rw [if_pos rfl]
    exact fileGetM_content_enc hb
  · simp [linuxSet, linuxGet, secretToolStore, secretToolLookupOutcome,
      getSecretToolM, hv]

/-- C4 amended witness: the round-trip under the file fallback. -/
theorem C4_amended_stable_for_fixed_availability_witness :
    linuxGet false (bytesOf "/dir")
        (linuxSet false (bytesOf "/dir") linuxEmpty (bytesOf "app") (bytesOf "k")
          [0, 200]).1 (bytesOf "app") (bytesOf "k") = .ok [0, 200] :=
  C4_amended_stable_for_fixed_availability false (bytesOf "/dir") linuxEmpty
    (bytesOf "app") (bytesOf "k") [0, 200] (by decide) (by decide)

/-- C3 counterexample: the filename is the URL-safe encoding of
`service + "/" + key`, so the distinct identities `("a", "b/c")` and
`("a/b", "c")` derive the same storage path. -/
theorem C3_counterexample_identity_collision :
    getStoragePathM (bytesOf "/data/vault-secrets") (bytesOf "a") (bytesOf "b/c") =
      getStoragePathM (bytesOf "/data/vault-secrets") (bytesOf "a/b") (bytesOf "c") ∧
    (bytesOf "a", bytesOf "b/c") ≠ (bytesOf "a/b", bytesOf "c") := by
  constructor <;> decide

/-- C3 amended: the storage filename is a URL-safe reversible encoding
of `service + "/" + key`, its bytes exclude the path separator and
`'.'` (so no traversal or separator injection), and distinct
identities whose *services* contain no `'/'` derive distinct paths;
identities such as `("a","b/c")` / `("a/b","c")` may collide. -/
theorem C3_amended_storage_path_derivation :
    (∀ dir s1 k1 s2 k2 : GoStr,
        (∀ b ∈ s1, b < 256) → (∀ b ∈ k1, b < 256) →
        (∀ b ∈ s2, b < 256) → (∀ b ∈ k2, b < 256) →
        47 ∉ s1 → 47 ∉ s2 → (s1, k1) ≠ (s2, k2) →
        getStoragePathM dir s1 k1 ≠ getStoragePathM dir s2 k2) ∧
    (∀ s k : GoStr, ∀ c ∈ storageFileName s k, c ≠ 47 ∧ c ≠ 46) ∧
    (∀ s k : GoStr, (∀ b ∈ s, b < 256) → (∀ b ∈ k, b < 256) →
        decB64 urlTbl (storageFileName s k) = some (s ++ 47 :: k)) := by
  refine ⟨?_, ?_, ?_⟩
  · intro dir s1 k1 s2 k2 hs1 hk1 hs2 hk2 hns1 hns2 hne heq
    apply hne
    have hb1 : ∀ b ∈ s1 ++ 47 :: k1, b < 256 := by
      intro b hbm
      rcases List.mem_append.mp hbm with h | h
      · exact hs1 b h
      · rcases List.mem_cons.mp h with h | h
        · omega
        · exact hk1 b h
    have hb2 : ∀ b ∈ s2 ++ 47 :: k2, b < 256 := by
      intro b hbm
      rcases List.mem_append.mp hbm with h | h
      · exact hs2 b h
      · rcases List.mem_cons.mp h with h | h
        · omega
        · exact hk2 b h
    unfold getStoragePathM at heq
    have henc : encB64 urlTbl (s1 ++ 47 :: k1) = encB64 urlTbl (s2 ++ 47 :: k2) := by
      have := List.append_cancel_left heq
      exact List.cons_injective this
    have harg := encB64_url_inj hb1 hb2 henc
    obtain ⟨hse, hke⟩ := slash_split hns1 hns2 harg
    rw [hse, hke]
  · intro s k c hc
    rcases encB64_mem urlTbl (s ++ 47 :: k) c hc with h | h | h
    · exact urlTbl_no_sep c h
    · subst h; exact ⟨by decide, by decide⟩
    · subst h; exact ⟨by decide, by decide⟩
  · intro s k hs hk
    apply decB64_encB64 urlTbl urlTbl_idx urlTbl_ne_pad
    intro b hbm
    rcases List.mem_append.mp hbm with h | h
    · exact hs b h
    · rcases List.mem_cons.mp h with h | h
      · omega
      · exact hk b h

/-- C3 amended witness: distinct slash-free identities get distinct
paths; a concrete filename byte is neither `'/'` nor `'.'`; a concrete
filename decodes back to `service + "/" + key`. -/
theorem C3_amended_storage_path_derivation_witness :
    getStoragePathM (bytesOf "/d") [97] [98] ≠ getStoragePathM (bytesOf "/d") [97] [99] ∧
    ((storageFileName [97] [98]).getD 0 0 ≠ 47 ∧ (storageFileName [97] [98]).getD 0 0 ≠ 46) ∧
    decB64 urlTbl (storageFileName [97] [98]) = some [97, 47, 98] :=
  ⟨C3_amended_storage_path_derivation.1 (bytesOf "/d") [97] [98] [97] [99]
      (by decide) (by decide) (by decide) (by decide) (by decide) (by decide)
      (by decide),
    C3_amended_storage_path_derivation.2.1 [97] [98] ((storageFileName [97] [98]).getD 0 0)
      (by decide),
    C3_amended_storage_path_derivation.2.2 [97] [98] (by decide) (by decide)⟩

end Vault
